import Mathlib

/-!
Verification of the danos-bootstrap build-order tool.

The repository holds two near-duplicate variants of one Go program:
src/main.go (the go-git variant) and a second main file (the exec-git
variant, called part 0 below).  Definitions without a suffix embed the
exec-git variant; definitions with suffix G embed the go-git variant of
src/main.go where the two differ.

The topological sort itself lives in the external package
github.com/danos/utils/tsort, which is not part of this repository; it is
modelled from the specification contract (section 4.3): a deterministic
topological sort over the vertices registered through AddVertex/AddEdge
that fails on cycles.
-/

namespace Danos

/-- One alternative package name inside a build-dependency relation
(dependency.Possibility, field Name, of pault.ag/go/debian). -/
structure Possibility where
  name : String
deriving DecidableEq, Repr

/-- One build-time dependency relation: an alternation of possibilities
(dependency.Relation, field Possibilities). -/
structure Relation where
  possibilities : List Possibility
deriving DecidableEq, Repr

/-- Outcome of the Provides header of one binary paragraph: the header is
absent, present but rejected by dependency.Parse, or parsed into the names
of GetAllPossibilities. -/
inductive ProvidesDecl where
  | absent : ProvidesDecl
  | unparseable : ProvidesDecl
  | parsed : List String → ProvidesDecl
deriving DecidableEq, Repr

/-- One binary paragraph of a control file: its Package name and its
Provides declaration (control.Binary; the Provides header is read from
bin.Values in the exec-git variant). -/
structure Binary where
  pkg : String
  provides : ProvidesDecl
deriving DecidableEq, Repr

/-- A parsed control file, keeping the parts the tool reads:
ctrl.Source.BuildDepends.Relations and ctrl.Binaries. -/
structure Control where
  buildDepends : List Relation
  binaries : List Binary
deriving DecidableEq, Repr

/-- State of the debian/control file of one repository directory:
missing (os.Open fails), present but unparseable (control.ParseControl
fails), or parsed. -/
inductive CtrlState where
  | missing : CtrlState
  | unparseableFile : CtrlState
  | parsed : Control → CtrlState
deriving DecidableEq, Repr

/-- One entry of the source directory listing, in ioutil.ReadDir order. -/
structure DirEntry where
  name : String
  ctrl : CtrlState
deriving DecidableEq, Repr

/-- Go strings.TrimSpace, modelled over the character list so that it
evaluates by kernel reduction: strip leading and trailing whitespace. -/
def trimSpace (s : String) : String :=
  String.mk
    (((s.toList.dropWhile Char.isWhitespace).reverse.dropWhile
        Char.isWhitespace).reverse)

/-- Go map insertion m[k] = v: the new binding shadows any previous
binding for the same key (last writer wins). -/
def mapInsert (m : List (String × String)) (k v : String) :
    List (String × String) :=
  (k, v) :: m.filter (fun p => p.1 != k)

/-- Go map lookup m[k]. -/
def mapLookup (m : List (String × String)) (k : String) : Option String :=
  (m.find? (fun p => p.1 == k)).map Prod.snd

/-- The keys of an association list. -/
def mapKeys (m : List (String × String)) : List String :=
  m.map Prod.fst

/-- Go struct repoMetaData: ctrlFiles as an association list in discovery
order, pack2repo as a last-writer-wins association list, unparseable in
discovery order. -/
structure repoMetaData where
  ctrlFiles : List (String × Control)
  pack2repo : List (String × String)
  unparseable : List String
deriving DecidableEq, Repr

/-- Indexing of one binary paragraph in the exec-git variant of
enumerateBuildableRepos: first pack2repo[TrimSpace(bin.Package)] = repo,
then, when the Provides header is present and dependency.Parse accepts
it, every provided name trimmed the same way; an absent or unparseable
Provides declaration only skips itself. -/
def indexBinary (repo : String) (m : List (String × String))
    (bin : Binary) : List (String × String) :=
  let m1 := mapInsert m (trimSpace bin.pkg) repo
  match bin.provides with
  | ProvidesDecl.absent => m1
  | ProvidesDecl.unparseable => m1
  | ProvidesDecl.parsed names =>
      names.foldl (fun acc n => mapInsert acc (trimSpace n) repo) m1

/-- Loop body of enumerateBuildableRepos in the exec-git variant:
entries without a control file are skipped, entries whose control file
fails to parse are recorded as unparseable, parsed entries are recorded
in ctrlFiles and indexed binary by binary. -/
def enumStep (out : repoMetaData) (e : DirEntry) : repoMetaData :=
  match e.ctrl with
  | CtrlState.missing => out
  | CtrlState.unparseableFile =>
      { out with unparseable := out.unparseable ++ [e.name] }
  | CtrlState.parsed c =>
      { out with
          ctrlFiles := out.ctrlFiles ++ [(e.name, c)],
          pack2repo := c.binaries.foldl (indexBinary e.name)
            out.pack2repo }

/-- enumerateBuildableRepos of the exec-git variant. -/
def enumerateBuildableRepos (entries : List DirEntry) : repoMetaData :=
  entries.foldl enumStep
    { ctrlFiles := [], pack2repo := [], unparseable := [] }

/-- Loop body of enumerateBuildableRepos in src/main.go: identical
except that only the trimmed Package name of each binary paragraph is
indexed; Provides declarations are ignored. -/
def enumStepG (out : repoMetaData) (e : DirEntry) : repoMetaData :=
  match e.ctrl with
  | CtrlState.missing => out
  | CtrlState.unparseableFile =>
      { out with unparseable := out.unparseable ++ [e.name] }
  | CtrlState.parsed c =>
      { out with
          ctrlFiles := out.ctrlFiles ++ [(e.name, c)],
          pack2repo := c.binaries.foldl
            (fun m bin => mapInsert m (trimSpace bin.pkg) e.name)
            out.pack2repo }

/-- enumerateBuildableRepos of src/main.go. -/
def enumerateBuildableReposG (entries : List DirEntry) : repoMetaData :=
  entries.foldl enumStepG
    { ctrlFiles := [], pack2repo := [], unparseable := [] }

/-- Insert a vertex if it is not present yet, keeping insertion order. -/
def insertVertex (vs : List String) (v : String) : List String :=
  if v ∈ vs then vs else vs ++ [v]

/-- Directed dependency graph of the tsort package, modelled from the
specification (sections 4.2 and 4.3): vertices in insertion order without
duplicates; AddEdge registers both endpoints and appends the edge.  An
edge (u, d) means u must be built after d. -/
structure TGraph where
  vertices : List String
  edges : List (String × String)
deriving DecidableEq, Repr

/-- tsort.New. -/
def TGraph.empty : TGraph :=
  { vertices := [], edges := [] }

/-- tsort AddVertex. -/
def TGraph.addVertex (g : TGraph) (v : String) : TGraph :=
  { g with vertices := insertVertex g.vertices v }

/-- tsort AddEdge u d: u depends on d (d must be placed before u). -/
def TGraph.addEdge (g : TGraph) (u d : String) : TGraph :=
  { vertices := insertVertex (insertVertex g.vertices u) d,
    edges := g.edges ++ [(u, d)] }

/-- A vertex is ready when every edge out of it points at an already
placed vertex. -/
def ready (edges : List (String × String)) (placed : List String)
    (v : String) : Bool :=
  decide (∀ e ∈ edges, e.1 = v → e.2 ∈ placed)

/-- Fueled Kahn loop, modelled from the specification contract (section
4.3): repeatedly place the first remaining ready vertex; answer none when
no remaining vertex is ready, which is the cycle error. -/
def kahnAux (edges : List (String × String)) :
    Nat → List String → List String → Option (List String)
  | 0, rem, acc => if rem.isEmpty then some acc.reverse else none
  | Nat.succ n, rem, acc =>
      if rem.isEmpty then some acc.reverse
      else
        match rem.find? (ready edges acc) with
        | none => none
        | some v => kahnAux edges n (rem.erase v) (v :: acc)

/-- tsort Sort, modelled from the specification contract (section 4.3):
a deterministic topological sort that fails on cycles. -/
def tsortSort (g : TGraph) : Option (List String) :=
  kahnAux g.edges g.vertices.length g.vertices []

/-- One possibility of one build-dependency relation: the trimmed name
is resolved through pack2repo; a resolved name yields AddEdge repo drepo,
an unresolved one is silently dropped. -/
def addPos (p2r : List (String × String)) (repo : String) (g : TGraph)
    (pos : Possibility) : TGraph :=
  match mapLookup p2r (trimSpace pos.name) with
  | none => g
  | some drepo => g.addEdge repo drepo

/-- Inner loop of determineBuildOrder over the possibilities of one
relation. -/
def addRel (p2r : List (String × String)) (repo : String) (g : TGraph)
    (rel : Relation) : TGraph :=
  rel.possibilities.foldl (addPos p2r repo) g

/-- Outer loop of determineBuildOrder over the build-dependency
relations of one control file. -/
def addDeps (p2r : List (String × String)) (repo : String) (g : TGraph)
    (ctrl : Control) : TGraph :=
  ctrl.buildDepends.foldl (addRel p2r repo) g

/-- The implicit base edges of the exec-git variant: every repo outside
the exclusion set of base-files and lintian-profile-vyatta gets edges to
both, and additionally to linux-vyatta unless it is linux-vyatta
itself. -/
def addImplicit (g : TGraph) (repo : String) : TGraph :=
  if repo ≠ "base-files" ∧ repo ≠ "lintian-profile-vyatta" then
    let ga := (g.addEdge repo "base-files").addEdge repo
      "lintian-profile-vyatta"
    if repo ≠ "linux-vyatta" then ga.addEdge repo "linux-vyatta" else ga
  else g

/-- The implicit base edge of the src/main.go variant: every repo,
without exception, gets AddEdge repo base-files. -/
def addImplicitG (g : TGraph) (repo : String) : TGraph :=
  g.addEdge repo "base-files"

/-- Graph contribution of one repository in the exec-git variant of
determineBuildOrder: AddVertex, the implicit base edges, then one edge
per resolved build-dependency possibility. -/
def addRepo (p2r : List (String × String)) (g : TGraph) (repo : String)
    (ctrl : Control) : TGraph :=
  addDeps p2r repo (addImplicit (g.addVertex repo) repo) ctrl

/-- Graph contribution of one repository in the src/main.go variant. -/
def addRepoG (p2r : List (String × String)) (g : TGraph) (repo : String)
    (ctrl : Control) : TGraph :=
  addDeps p2r repo (addImplicitG (g.addVertex repo) repo) ctrl

/-- Dependency graph built by the exec-git variant of
determineBuildOrder, processing ctrlFiles in discovery order (the Go map
iteration order is unspecified; this embedding fixes it to discovery
order, which none of the proved claims depend on). -/
def buildGraph (repos : repoMetaData) : TGraph :=
  repos.ctrlFiles.foldl (fun g rc => addRepo repos.pack2repo g rc.1 rc.2)
    TGraph.empty

/-- Dependency graph built by the src/main.go variant. -/
def buildGraphG (repos : repoMetaData) : TGraph :=
  repos.ctrlFiles.foldl (fun g rc => addRepoG repos.pack2repo g rc.1 rc.2)
    TGraph.empty

/-- determineBuildOrder of the exec-git variant; none models the panic on
the cycle error from Sort, on which no order at all is produced. -/
def determineBuildOrder (repos : repoMetaData) : Option (List String) :=
  match tsortSort (buildGraph repos) with
  | none => none
  | some sorted => some (sorted ++ repos.unparseable)

/-- determineBuildOrder of src/main.go. -/
def determineBuildOrderG (repos : repoMetaData) : Option (List String) :=
  match tsortSort (buildGraphG repos) with
  | none => none
  | some sorted => some (sorted ++ repos.unparseable)

/-- The implicit base edges the exec-git variant adds for one repo,
read off the branch structure of determineBuildOrder. -/
def implicitEdges (repo : String) : List (String × String) :=
  if repo ≠ "base-files" ∧ repo ≠ "lintian-profile-vyatta" then
    [(repo, "base-files"), (repo, "lintian-profile-vyatta")] ++
      (if repo ≠ "linux-vyatta" then [(repo, "linux-vyatta")] else [])
  else []

/-- The implicit base edge the src/main.go variant adds for one repo:
unconditionally an edge to base-files. -/
def implicitEdgesG (repo : String) : List (String × String) :=
  [(repo, "base-files")]

/-- The edge one possibility contributes, when its trimmed name
resolves through pack2repo. -/
def posEdge (p2r : List (String × String)) (repo : String)
    (pos : Possibility) : Option (String × String) :=
  (mapLookup p2r (trimSpace pos.name)).map (fun drepo => (repo, drepo))

/-- The edges one relation contributes. -/
def relEdges (p2r : List (String × String)) (repo : String)
    (rel : Relation) : List (String × String) :=
  rel.possibilities.filterMap (posEdge p2r repo)

/-- The dependency edges one repo contributes: one edge per possibility
whose trimmed name resolves through pack2repo. -/
def depEdges (p2r : List (String × String)) (repo : String)
    (ctrl : Control) : List (String × String) :=
  (ctrl.buildDepends.map (relEdges p2r repo)).flatten

/-- All edges one repo contributes in the exec-git variant. -/
def repoEdges (p2r : List (String × String)) (repo : String)
    (ctrl : Control) : List (String × String) :=
  implicitEdges repo ++ depEdges p2r repo ctrl

/-- All edges one repo contributes in the src/main.go variant. -/
def repoEdgesG (p2r : List (String × String)) (repo : String)
    (ctrl : Control) : List (String × String) :=
  implicitEdgesG repo ++ depEdges p2r repo ctrl

/-- Every placed vertex of the accumulator has all its dependencies
deeper in the accumulator (the accumulator is kept in reverse placement
order). -/
def accOk (edges : List (String × String)) : List String → Prop
  | [] => True
  | v :: rest => (∀ e ∈ edges, e.1 = v → e.2 ∈ rest) ∧ accOk edges rest

/-- A nonempty chain along the graph edges. -/
def isChain (edges : List (String × String)) : List String → Prop
  | [] => True
  | [_] => True
  | u :: d :: rest => (u, d) ∈ edges ∧ isChain edges (d :: rest)

/-- The graph has a directed cycle: a chain that starts and ends at the
same vertex and takes at least one step. -/
def hasCycle (edges : List (String × String)) : Prop :=
  ∃ v p, p ≠ [] ∧ p.getLast? = some v ∧ isChain edges (v :: p)

/-- Every edge endpoint is a registered vertex. -/
def WFGraph (g : TGraph) : Prop :=
  ∀ e ∈ g.edges, e.1 ∈ g.vertices ∧ e.2 ∈ g.vertices

/-- The vertex list stays duplicate free. -/
def NodupV (g : TGraph) : Prop :=
  g.vertices.Nodup

/-- An empty control file used in concrete checks. -/
def ctrlEmpty : Control :=
  { buildDepends := [], binaries := [] }

/-- Control file of a unit whose binary package b-main also provides the
alias b-alias. -/
def ctrlB : Control :=
  { buildDepends := [],
    binaries :=
      [{ pkg := "b-main", provides := ProvidesDecl.parsed ["b-alias"] }] }

/-- Control file of a unit that build-depends on the alias b-alias. -/
def ctrlA : Control :=
  { buildDepends := [{ possibilities := [{ name := "b-alias" }] }],
    binaries := [{ pkg := "a-main", provides := ProvidesDecl.absent }] }

/-- Directory of the alias scenario: unit B provides b-alias, unit A
requires it. -/
def entriesAlias : List DirEntry :=
  [{ name := "B", ctrl := CtrlState.parsed ctrlB },
   { name := "A", ctrl := CtrlState.parsed ctrlA }]

/-- Control file requiring package a-pkg while producing b-pkg. -/
def ctrlNeedsA : Control :=
  { buildDepends := [{ possibilities := [{ name := "a-pkg" }] }],
    binaries := [{ pkg := "b-pkg", provides := ProvidesDecl.absent }] }

/-- Control file requiring package b-pkg while producing a-pkg. -/
def ctrlNeedsB : Control :=
  { buildDepends := [{ possibilities := [{ name := "b-pkg" }] }],
    binaries := [{ pkg := "a-pkg", provides := ProvidesDecl.absent }] }

/-- Directory of two mutually dependent units. -/
def entriesCycle : List DirEntry :=
  [{ name := "a", ctrl := CtrlState.parsed ctrlNeedsB },
   { name := "b", ctrl := CtrlState.parsed ctrlNeedsA }]

/-- Directory whose only unit is a parseable base-files. -/
def entriesBase : List DirEntry :=
  [{ name := "base-files", ctrl := CtrlState.parsed ctrlEmpty }]

/-- Directory with an unparseable base-files next to a parseable unit. -/
def entriesUnp : List DirEntry :=
  [{ name := "base-files", ctrl := CtrlState.unparseableFile },
   { name := "foo", ctrl := CtrlState.parsed ctrlEmpty }]

/-- Directory with a single unparseable unit. -/
def entriesU : List DirEntry :=
  [{ name := "u", ctrl := CtrlState.unparseableFile }]

/-- The name an entry contributes to the unparseable list. -/
def unpName (e : DirEntry) : Option String :=
  match e.ctrl with
  | CtrlState.unparseableFile => some e.name
  | _ => none

/-- The record an entry contributes to ctrlFiles. -/
def parsedPair (e : DirEntry) : Option (String × Control) :=
  match e.ctrl with
  | CtrlState.parsed c => some (e.name, c)
  | _ => none

/-- Errors flowing through the executor: a build failure wrapped with
the unit name by buildRepo, or an error of teeAndEval itself (pipe or
log-file creation) passed through unwrapped. -/
inductive RunErr where
  | buildError (repo : String) (cause : String)
  | passthrough (msg : String)
deriving DecidableEq, Repr

/-- buildRepo: both failure points, MakeBuilder and Build, wrap the
underlying cause with the repo name; the two collaborator outcomes mk
and bld are inputs of the embedding. -/
def buildRepo (repo : String) (mk bld : Option String) : Option RunErr :=
  match mk with
  | some cause => some (RunErr.buildError repo cause)
  | none =>
      match bld with
      | some cause => some (RunErr.buildError repo cause)
      | none => none

/-- Per-unit log file name opened by teeAndEval: repo + ".log". -/
def perUnitLogName (repo : String) : String :=
  repo ++ ".log"

/-- Observable state of a run of the buildRepos goroutine loop:
aggregated failures, lines written to failed-builds.log, units
attempted, per-unit log files opened. -/
structure RunState where
  buildErrs : List RunErr
  logLines : List RunErr
  attempted : List String
  logFiles : List String
deriving DecidableEq, Repr

/-- One iteration of the buildRepos loop: teeAndEval opens the per-unit
log and evaluates the build of the unit; a failure is appended to the
aggregated list and written to failed-builds.log; the loop continues
with the next unit either way. -/
def buildStep (att : String → Option RunErr) (st : RunState)
    (repo : String) : RunState :=
  let st1 := { st with attempted := st.attempted ++ [repo],
                       logFiles := st.logFiles ++ [perUnitLogName repo] }
  match att repo with
  | none => st1
  | some e => { st1 with buildErrs := st1.buildErrs ++ [e],
                         logLines := st1.logLines ++ [e] }

/-- The buildRepos loop over the whole build order (the loop body runs
in a goroutine; the interrupt only truncates the waiting of the
coordinator, never this loop, so the sequential fold is the complete
no-interrupt behaviour). -/
def buildReposLoop (att : String → Option RunErr)
    (repos : List String) : RunState :=
  repos.foldl (buildStep att)
    { buildErrs := [], logLines := [], attempted := [], logFiles := [] }

/-- The value buildRepos returns: the aggregated error list exactly when
it is non-empty. -/
def buildReposResult (att : String → Option RunErr)
    (repos : List String) : Except (List RunErr) Unit :=
  let st := buildReposLoop att repos
  if st.buildErrs.isEmpty then Except.ok () else Except.error st.buildErrs

/-- Engine outcomes for the C6 witness: unit a fails its Build step with
cause boom, everything else succeeds. -/
def bldBoom (r : String) : Option String :=
  if r = "a" then some "boom" else none

/-- Engine MakeBuilder outcomes for the C6 witness: always succeed. -/
def mkOk (_ : String) : Option String :=
  none

/-- File open flags of the os package used by the tool. -/
inductive OFlag where
  | ordwr : OFlag
  | ocreate : OFlag
  | otrunc : OFlag
deriving DecidableEq, Repr

/-- Flags of OpenFile for failed-builds.log in the exec-git variant:
O_RDWR, O_CREATE and O_TRUNC. -/
def failedLogFlags : List OFlag :=
  [OFlag.ordwr, OFlag.ocreate, OFlag.otrunc]

/-- Flags of OpenFile for failed-builds.log in src/main.go: O_RDWR and
O_CREATE only, without O_TRUNC. -/
def failedLogFlagsG : List OFlag :=
  [OFlag.ordwr, OFlag.ocreate]

/-- File content right after OpenFile over previous content old. -/
def contentAfterOpen (flags : List OFlag) (old : List Char) : List Char :=
  if OFlag.otrunc ∈ flags then [] else old

/-- File content after the run wrote the given bytes starting at offset
zero (O_APPEND is not set, so writing overwrites from the start and any
longer previous content keeps its tail). -/
def contentAfterRun (flags : List OFlag) (old written : List Char) :
    List Char :=
  written ++ (contentAfterOpen flags old).drop written.length

/-- A value of os.Stdout or os.Stderr: either the descriptor installed
at entry or the write end of the pipe installed by teeAndEval. -/
inductive StreamVal where
  | fd : Nat → StreamVal
  | pipeWriter : StreamVal
deriving DecidableEq, Repr

/-- The mutable process-wide output streams. -/
structure ProcState where
  stdout : StreamVal
  stderr : StreamVal
deriving DecidableEq, Repr

/-- What one call of teeAndEval reports: the returned error value,
whether the wrapped fn was invoked, and whether the copy goroutine was
awaited (wg.Wait) before returning. -/
structure TeeOutcome where
  ret : Option String
  fnRan : Bool
  drained : Bool
deriving DecidableEq, Repr

/-- teeAndEval of both variants; pipeRes, openRes and fnRes are the
outcomes of os.Pipe, os.OpenFile of the per-unit log, and fn.  The
control flow follows the source: a pipe failure returns before any
redirection; an open failure returns after redirecting both streams to
the pipe writer without restoring them; otherwise fn runs, the pipe
writer is closed, both streams are restored to their entry values and
the copy goroutine is awaited before the call returns fn's outcome. -/
def teeAndEval (pipeRes openRes fnRes : Option String) (s : ProcState) :
    TeeOutcome × ProcState :=
  match pipeRes with
  | some e => ({ ret := some e, fnRan := false, drained := false }, s)
  | none =>
      let sRedir : ProcState :=
        { stdout := StreamVal.pipeWriter, stderr := StreamVal.pipeWriter }
      match openRes with
      | some e =>
          ({ ret := some e, fnRan := false, drained := false }, sRedir)
      | none =>
          ({ ret := fnRes, fnRan := true, drained := true }, s)

/-- What a whole run of main leaves observable: the printed build order,
whether the log directory was created, and the executor state when a
build phase ran. -/
structure MainOutcome where
  printedOrder : Option (List String)
  logDirCreated : Bool
  runState : Option RunState
deriving DecidableEq, Repr

/-- main of the exec-git variant: the clone phase when requested (after
checking the git ref flag), then enumerate, resolve and print the build
order, then the build phase when requested, creating the log directory
and running buildRepos over the printed order.  The value none models
the fatal exits: missing ref, clone failure, the cycle panic, or mkdir
failure. -/
def mainRun (cloneFlag buildFlag : Bool) (gitRef : String)
    (cloneRes mkdirRes : Option String) (entries : List DirEntry)
    (att : String → Option RunErr) : Option MainOutcome :=
  if cloneFlag ∧ (gitRef = "" ∨ cloneRes.isSome) then none
  else
    match determineBuildOrder (enumerateBuildableRepos entries) with
    | none => none
    | some order =>
        if buildFlag then
          match mkdirRes with
          | some _ => none
          | none =>
              some { printedOrder := some order, logDirCreated := true,
                     runState := some (buildReposLoop att order) }
        else
          some { printedOrder := some order, logDirCreated := false,
                 runState := none }

/-- main of the src/main.go variant: identical but with no git ref
check and with the go-git resolver. -/
def mainRunG (cloneFlag buildFlag : Bool) (cloneRes mkdirRes : Option String)
    (entries : List DirEntry) (att : String → Option RunErr) :
    Option MainOutcome :=
  if cloneFlag ∧ cloneRes.isSome then none
  else
    match determineBuildOrderG (enumerateBuildableReposG entries) with
    | none => none
    | some order =>
        if buildFlag then
          match mkdirRes with
          | some _ => none
          | none =>
              some { printedOrder := some order, logDirCreated := true,
                     runState := some (buildReposLoop att order) }
        else
          some { printedOrder := some order, logDirCreated := false,
                 runState := none }

theorem mem_insertVertex_self (vs : List String) (v : String) :
    v ∈ insertVertex vs v := by
  unfold insertVertex
  by_cases h : v ∈ vs
  · simp [h]
  · simp [h]

theorem mem_insertVertex_of_mem (vs : List String) (v x : String)
    (h : x ∈ vs) : x ∈ insertVertex vs v := by
  unfold insertVertex
  by_cases hv : v ∈ vs
  · simp [hv, h]
  · simp [hv, h]

theorem insertVertex_nodup (vs : List String) (v : String)
    (h : vs.Nodup) : (insertVertex vs v).Nodup := by
  unfold insertVertex
  by_cases hv : v ∈ vs
  · simpa [hv]
  · simpa [hv, List.nodup_append] using h

theorem ready_spec (edges : List (String × String)) (placed : List String)
    (v : String) (h : ready edges placed v = true) :
    ∀ e ∈ edges, e.1 = v → e.2 ∈ placed :=
  of_decide_eq_true h

theorem kahnAux_spec (edges : List (String × String)) :
    ∀ (n : Nat) (rem acc l : List String),
      kahnAux edges n rem acc = some l → accOk edges acc →
      ∃ acc2, l = acc2.reverse ∧ accOk edges acc2 ∧
        acc2.Perm (rem ++ acc) := by
  intro n
  induction n with
  | zero =>
      intro rem acc l h hacc
      unfold kahnAux at h
      by_cases hrem : rem.isEmpty
      · simp [hrem] at h
        refine ⟨acc, h.symm, hacc, ?_⟩
        rw [List.isEmpty_iff.mp hrem]
        simp
      · simp [hrem] at h
  | succ n ih =>
      intro rem acc l h hacc
      unfold kahnAux at h
      by_cases hrem : rem.isEmpty
      · simp [hrem] at h
        refine ⟨acc, h.symm, hacc, ?_⟩
        rw [List.isEmpty_iff.mp hrem]
        simp
      · simp [hrem] at h
        cases hfind : rem.find? (ready edges acc) with
        | none => rw [hfind] at h; simp at h
        | some v =>
            rw [hfind] at h
            simp at h
            have hv : v ∈ rem := List.mem_of_find?_eq_some hfind
            have hready : ready edges acc v = true :=
              List.find?_some hfind
            have hacc2 : accOk edges (v :: acc) :=
              ⟨ready_spec edges acc v hready, hacc⟩
            obtain ⟨acc2, hl, hok, hperm⟩ := ih (rem.erase v) (v :: acc) l h hacc2
            refine ⟨acc2, hl, hok, ?_⟩
            have h1 : (rem.erase v ++ v :: acc).Perm (v :: (rem.erase v ++ acc)) :=
              List.perm_middle
            have h2 : rem.Perm (v :: rem.erase v) := List.perm_cons_erase hv
            have h3 : (rem ++ acc).Perm ((v :: rem.erase v) ++ acc) :=
              h2.append_right acc
            have h4 : ((v :: rem.erase v) ++ acc) = v :: (rem.erase v ++ acc) := by
              simp
            exact hperm.trans (h1.trans (by rw [← h4]; exact h3.symm))

theorem accOk_indexOf (edges : List (String × String)) :
    ∀ (acc : List String), accOk edges acc → acc.Nodup →
      ∀ e ∈ edges, e.1 ∈ acc →
        e.2 ∈ acc ∧
          List.indexOf e.2 acc.reverse < List.indexOf e.1 acc.reverse := by
  intro acc
  induction acc with
  | nil => intro _ _ e _ h1; simp at h1
  | cons v rest ih =>
      intro hacc hnd e he h1
      obtain ⟨hv, hrest⟩ := hacc
      have hndr : rest.Nodup := hnd.of_cons
      have hvnr : v ∉ rest := (List.nodup_cons.mp hnd).1
      rcases List.mem_cons.mp h1 with h1v | h1r
      · -- the edge source is the most recently placed vertex
        have h2 : e.2 ∈ rest := hv e he h1v
        have h2rev : e.2 ∈ rest.reverse := List.mem_reverse.mpr h2
        have hvr : v ∉ rest.reverse := fun hc => hvnr (List.mem_reverse.mp hc)
        constructor
        · exact List.mem_cons_of_mem v h2
        · rw [List.reverse_cons, h1v]
          rw [List.indexOf_append_of_mem h2rev]
          rw [List.indexOf_append_of_not_mem hvr]
          calc List.indexOf e.2 rest.reverse
              < rest.reverse.length := List.indexOf_lt_length.mpr h2rev
            _ ≤ rest.reverse.length + List.indexOf v [v] := Nat.le_add_right _ _
      · -- the edge source was placed earlier
        obtain ⟨h2, hlt⟩ := ih hrest hndr e he h1r
        have h1rev : e.1 ∈ rest.reverse := List.mem_reverse.mpr h1r
        have h2rev : e.2 ∈ rest.reverse := List.mem_reverse.mpr h2
        constructor
        · exact List.mem_cons_of_mem v h2
        · rw [List.reverse_cons]
          rw [List.indexOf_append_of_mem h2rev,
            List.indexOf_append_of_mem h1rev]
          exact hlt

/-- The modelled Sort is a topological sort: on success the output is a
permutation of the vertices in which every dependency strictly precedes
its dependent. -/
theorem tsortSort_topo (g : TGraph) (hnd : g.vertices.Nodup)
    (l : List String) (h : tsortSort g = some l) :
    l.Perm g.vertices ∧
      ∀ e ∈ g.edges, e.1 ∈ l → e.2 ∈ l ∧
        List.indexOf e.2 l < List.indexOf e.1 l := by
  obtain ⟨acc2, hl, hok, hperm⟩ :=
    kahnAux_spec g.edges g.vertices.length g.vertices [] l h trivial
  rw [List.append_nil] at hperm
  have hpl : l.Perm g.vertices := by
    rw [hl]
    exact (acc2.reverse_perm).trans hperm
  have hnd2 : acc2.Nodup := (hperm.symm.nodup hnd)
  refine ⟨hpl, ?_⟩
  intro e he h1
  have h1a : e.1 ∈ acc2 := by
    rw [hl] at h1
    exact List.mem_reverse.mp h1
  obtain ⟨h2, hlt⟩ := accOk_indexOf g.edges acc2 hok hnd2 e he h1a
  rw [hl]
  exact ⟨List.mem_reverse.mpr h2, hlt⟩

theorem chain_indexOf_lt (edges : List (String × String)) (l : List String)
    (htopo : ∀ e ∈ edges, e.1 ∈ l → e.2 ∈ l ∧
      List.indexOf e.2 l < List.indexOf e.1 l) :
    ∀ (p : List String) (u w : String), isChain edges (u :: p) → u ∈ l →
      p.getLast? = some w →
      w ∈ l ∧ List.indexOf w l < List.indexOf u l := by
  intro p
  induction p with
  | nil => intro u w _ _ hlast; simp at hlast
  | cons d rest ih =>
      intro u w hchain hu hlast
      obtain ⟨hed, hch2⟩ : (u, d) ∈ edges ∧ isChain edges (d :: rest) := hchain
      obtain ⟨hd, hdlt⟩ := htopo (u, d) hed hu
      cases rest with
      | nil =>
          simp at hlast
          subst hlast
          exact ⟨hd, hdlt⟩
      | cons r rs =>
          have hlast2 : (r :: rs).getLast? = some w := by
            rw [List.getLast?_cons_cons] at hlast
            exact hlast
          obtain ⟨hw, hwlt⟩ := ih d w hch2 hd hlast2
          exact ⟨hw, Nat.lt_trans hwlt hdlt⟩

/-- The modelled Sort fails on every graph with a directed cycle. -/
theorem tsortSort_cycle_none (g : TGraph) (hnd : g.vertices.Nodup)
    (hwf : WFGraph g) (hc : hasCycle g.edges) : tsortSort g = none := by
  cases hsort : tsortSort g with
  | none => rfl
  | some l =>
      exfalso
      obtain ⟨hperm, htopo⟩ := tsortSort_topo g hnd l hsort
      obtain ⟨v, p, hne, hlast, hchain⟩ := hc
      cases p with
      | nil => exact hne rfl
      | cons d rest =>
          have hed : (v, d) ∈ g.edges :=
            (show (v, d) ∈ g.edges ∧ isChain g.edges (d :: rest) from hchain).1
          have hv : v ∈ l := hperm.symm.subset (hwf (v, d) hed).1
          obtain ⟨_, hlt⟩ :=
            chain_indexOf_lt g.edges l htopo (d :: rest) v v hchain hv hlast
          exact Nat.lt_irrefl _ hlt

theorem foldl_preserve {α β : Type} (f : α → β → α) (P : α → Prop)
    (hstep : ∀ a b, P a → P (f a b)) :
    ∀ (l : List β) (a : α), P a → P (l.foldl f a) := by
  intro l
  induction l with
  | nil => intro a h; exact h
  | cons b rest ih => intro a h; exact ih (f a b) (hstep a b h)

theorem foldl_establish {α β : Type} (f : α → β → α) (P : α → Prop)
    (hstep : ∀ a b, P a → P (f a b)) :
    ∀ (l : List β) (a : α) (b : β), b ∈ l → (∀ a2, P (f a2 b)) →
      P (l.foldl f a) := by
  intro l
  induction l with
  | nil => intro a b hb; simp at hb
  | cons c rest ih =>
      intro a b hb hset
      rcases List.mem_cons.mp hb with hbc | hbr
      · subst hbc
        exact foldl_preserve f P hstep rest (f a b) (hset a)
      · exact ih (f a c) b hbr hset

theorem addPos_edges (p2r : List (String × String)) (repo : String)
    (g : TGraph) (pos : Possibility) :
    (addPos p2r repo g pos).edges =
      g.edges ++ (posEdge p2r repo pos).toList := by
  unfold addPos posEdge
  cases h : mapLookup p2r (trimSpace pos.name) with
  | none => simp
  | some drepo => simp [TGraph.addEdge]

theorem addRel_edges (p2r : List (String × String)) (repo : String) :
    ∀ (ps : List Possibility) (g : TGraph),
      (ps.foldl (addPos p2r repo) g).edges =
        g.edges ++ ps.filterMap (posEdge p2r repo) := by
  intro ps
  induction ps with
  | nil => intro g; simp
  | cons pos rest ih =>
      intro g
      rw [List.foldl_cons, ih (addPos p2r repo g pos), addPos_edges]
      cases h : posEdge p2r repo pos with
      | none => simp [h]
      | some e => simp [h]

theorem addDeps_edges (p2r : List (String × String)) (repo : String) :
    ∀ (rels : List Relation) (g : TGraph),
      (rels.foldl (addRel p2r repo) g).edges =
        g.edges ++ (rels.map (relEdges p2r repo)).flatten := by
  intro rels
  induction rels with
  | nil => intro g; simp
  | cons rel rest ih =>
      intro g
      rw [List.foldl_cons, ih]
      unfold addRel relEdges
      rw [addRel_edges]
      simp

theorem addImplicit_edges (g : TGraph) (repo : String) :
    (addImplicit g repo).edges = g.edges ++ implicitEdges repo := by
  unfold addImplicit implicitEdges
  by_cases h1 : repo ≠ "base-files" ∧ repo ≠ "lintian-profile-vyatta"
  · by_cases h2 : repo ≠ "linux-vyatta"
    · simp [h1, h2, TGraph.addEdge]
    · simp [h1, h2, TGraph.addEdge]
  · simp [h1]

theorem addImplicitG_edges (g : TGraph) (repo : String) :
    (addImplicitG g repo).edges = g.edges ++ implicitEdgesG repo := by
  simp [addImplicitG, implicitEdgesG, TGraph.addEdge]

theorem addRepo_edges (p2r : List (String × String)) (g : TGraph)
    (repo : String) (ctrl : Control) :
    (addRepo p2r g repo ctrl).edges =
      g.edges ++ repoEdges p2r repo ctrl := by
  unfold addRepo addDeps repoEdges depEdges
  rw [addDeps_edges, addImplicit_edges]
  simp [TGraph.addVertex]

theorem addRepoG_edges (p2r : List (String × String)) (g : TGraph)
    (repo : String) (ctrl : Control) :
    (addRepoG p2r g repo ctrl).edges =
      g.edges ++ repoEdgesG p2r repo ctrl := by
  unfold addRepoG addDeps repoEdgesG depEdges
  rw [addDeps_edges, addImplicitG_edges]
  simp [TGraph.addVertex]

theorem buildGraph_edges (md : repoMetaData) :
    (buildGraph md).edges =
      (md.ctrlFiles.map
        (fun rc => repoEdges md.pack2repo rc.1 rc.2)).flatten := by
  unfold buildGraph
  suffices h : ∀ (l : List (String × Control)) (g : TGraph),
      (l.foldl (fun g2 rc => addRepo md.pack2repo g2 rc.1 rc.2) g).edges =
        g.edges ++ (l.map (fun rc => repoEdges md.pack2repo rc.1 rc.2)).flatten by
    rw [h md.ctrlFiles TGraph.empty]
    simp [TGraph.empty]
  intro l
  induction l with
  | nil => intro g; simp
  | cons rc rest ih =>
      intro g
      rw [List.foldl_cons, ih, addRepo_edges]
      simp

theorem WFGraph_addVertex (g : TGraph) (v : String) (h : WFGraph g) :
    WFGraph (g.addVertex v) := by
  intro e he
  obtain ⟨h1, h2⟩ := h e he
  exact ⟨mem_insertVertex_of_mem _ _ _ h1, mem_insertVertex_of_mem _ _ _ h2⟩

theorem WFGraph_addEdge (g : TGraph) (u d : String) (h : WFGraph g) :
    WFGraph (g.addEdge u d) := by
  intro e he
  unfold TGraph.addEdge at he
  simp at he
  rcases he with he | he
  · obtain ⟨h1, h2⟩ := h e he
    exact ⟨mem_insertVertex_of_mem _ _ _ (mem_insertVertex_of_mem _ _ _ h1),
      mem_insertVertex_of_mem _ _ _ (mem_insertVertex_of_mem _ _ _ h2)⟩
  · subst he
    refine ⟨?_, ?_⟩
    · exact mem_insertVertex_of_mem _ _ _ (mem_insertVertex_self _ _)
    · exact mem_insertVertex_self _ _

theorem WFGraph_addPos (p2r : List (String × String)) (repo : String)
    (g : TGraph) (pos : Possibility) (h : WFGraph g) :
    WFGraph (addPos p2r repo g pos) := by
  unfold addPos
  cases mapLookup p2r (trimSpace pos.name) with
  | none => exact h
  | some drepo => exact WFGraph_addEdge g repo drepo h

theorem WFGraph_addImplicit (g : TGraph) (repo : String) (h : WFGraph g) :
    WFGraph (addImplicit g repo) := by
  unfold addImplicit
  by_cases h1 : repo ≠ "base-files" ∧ repo ≠ "lintian-profile-vyatta"
  · by_cases h2 : repo ≠ "linux-vyatta"
    · rw [if_pos h1, if_pos h2]
      exact WFGraph_addEdge _ _ _ (WFGraph_addEdge _ _ _ (WFGraph_addEdge _ _ _ h))
    · rw [if_pos h1, if_neg h2]
      exact WFGraph_addEdge _ _ _ (WFGraph_addEdge _ _ _ h)
  · rw [if_neg h1]
    exact h

theorem WFGraph_addRepo (p2r : List (String × String)) (g : TGraph)
    (repo : String) (ctrl : Control) (h : WFGraph g) :
    WFGraph (addRepo p2r g repo ctrl) := by
  unfold addRepo addDeps
  refine foldl_preserve (addRel p2r repo) WFGraph ?_ ctrl.buildDepends _ ?_
  · intro g2 rel hg2
    exact foldl_preserve (addPos p2r repo) WFGraph
      (fun a b ha => WFGraph_addPos p2r repo a b ha) rel.possibilities g2 hg2
  · exact WFGraph_addImplicit _ _ (WFGraph_addVertex _ _ h)

theorem buildGraph_wf (md : repoMetaData) : WFGraph (buildGraph md) := by
  unfold buildGraph
  refine foldl_preserve _ WFGraph ?_ md.ctrlFiles TGraph.empty ?_
  · intro g rc hg
    exact WFGraph_addRepo md.pack2repo g rc.1 rc.2 hg
  · intro e he
    simp [TGraph.empty] at he

theorem WFGraph_addRepoG (p2r : List (String × String)) (g : TGraph)
    (repo : String) (ctrl : Control) (h : WFGraph g) :
    WFGraph (addRepoG p2r g repo ctrl) := by
  unfold addRepoG addDeps
  refine foldl_preserve (addRel p2r repo) WFGraph ?_ ctrl.buildDepends _ ?_
  · intro g2 rel hg2
    exact foldl_preserve (addPos p2r repo) WFGraph
      (fun a b ha => WFGraph_addPos p2r repo a b ha) rel.possibilities g2 hg2
  · exact WFGraph_addEdge _ _ _ (WFGraph_addVertex _ _ h)

theorem buildGraphG_wf (md : repoMetaData) : WFGraph (buildGraphG md) := by
  unfold buildGraphG
  refine foldl_preserve _ WFGraph ?_ md.ctrlFiles TGraph.empty ?_
  · intro g rc hg
    exact WFGraph_addRepoG md.pack2repo g rc.1 rc.2 hg
  · intro e he
    simp [TGraph.empty] at he

theorem NodupV_addVertex (g : TGraph) (v : String) (h : NodupV g) :
    NodupV (g.addVertex v) :=
  insertVertex_nodup _ _ h

theorem NodupV_addEdge (g : TGraph) (u d : String) (h : NodupV g) :
    NodupV (g.addEdge u d) :=
  insertVertex_nodup _ _ (insertVertex_nodup _ _ h)

theorem NodupV_addPos (p2r : List (String × String)) (repo : String)
    (g : TGraph) (pos : Possibility) (h : NodupV g) :
    NodupV (addPos p2r repo g pos) := by
  unfold addPos
  cases mapLookup p2r (trimSpace pos.name) with
  | none => exact h
  | some drepo => exact NodupV_addEdge g repo drepo h

theorem NodupV_addImplicit (g : TGraph) (repo : String) (h : NodupV g) :
    NodupV (addImplicit g repo) := by
  unfold addImplicit
  by_cases h1 : repo ≠ "base-files" ∧ repo ≠ "lintian-profile-vyatta"
  · by_cases h2 : repo ≠ "linux-vyatta"
    · rw [if_pos h1, if_pos h2]
      exact NodupV_addEdge _ _ _ (NodupV_addEdge _ _ _ (NodupV_addEdge _ _ _ h))
    · rw [if_pos h1, if_neg h2]
      exact NodupV_addEdge _ _ _ (NodupV_addEdge _ _ _ h)
  · rw [if_neg h1]
    exact h

theorem NodupV_addRepo (p2r : List (String × String)) (g : TGraph)
    (repo : String) (ctrl : Control) (h : NodupV g) :
    NodupV (addRepo p2r g repo ctrl) := by
  unfold addRepo addDeps
  refine foldl_preserve (addRel p2r repo) NodupV ?_ ctrl.buildDepends _ ?_
  · intro g2 rel hg2
    exact foldl_preserve (addPos p2r repo) NodupV
      (fun a b ha => NodupV_addPos p2r repo a b ha) rel.possibilities g2 hg2
  · exact NodupV_addImplicit _ _ (NodupV_addVertex _ _ h)

theorem buildGraph_nodup (md : repoMetaData) :
    (buildGraph md).vertices.Nodup := by
  unfold buildGraph
  refine foldl_preserve _ NodupV ?_ md.ctrlFiles TGraph.empty ?_
  · intro g rc hg
    exact NodupV_addRepo md.pack2repo g rc.1 rc.2 hg
  · simp [TGraph.empty, NodupV]

theorem NodupV_addRepoG (p2r : List (String × String)) (g : TGraph)
    (repo : String) (ctrl : Control) (h : NodupV g) :
    NodupV (addRepoG p2r g repo ctrl) := by
  unfold addRepoG addDeps
  refine foldl_preserve (addRel p2r repo) NodupV ?_ ctrl.buildDepends _ ?_
  · intro g2 rel hg2
    exact foldl_preserve (addPos p2r repo) NodupV
      (fun a b ha => NodupV_addPos p2r repo a b ha) rel.possibilities g2 hg2
  · exact NodupV_addEdge _ _ _ (NodupV_addVertex _ _ h)

theorem buildGraphG_nodup (md : repoMetaData) :
    (buildGraphG md).vertices.Nodup := by
  unfold buildGraphG
  refine foldl_preserve _ NodupV ?_ md.ctrlFiles TGraph.empty ?_
  · intro g rc hg
    exact NodupV_addRepoG md.pack2repo g rc.1 rc.2 hg
  · simp [TGraph.empty, NodupV]

/-- On a successful sort, concatenating the unparseable tail does not
disturb the dependency-before-dependent ordering of the sorted prefix. -/
theorem order_lift (g : TGraph) (unp : List String)
    (hnd : g.vertices.Nodup) (hwf : WFGraph g) (s : List String)
    (hs : tsortSort g = some s) :
    ∀ e ∈ g.edges,
      List.indexOf e.2 (s ++ unp) < List.indexOf e.1 (s ++ unp) := by
  obtain ⟨hperm, htopo⟩ := tsortSort_topo g hnd s hs
  intro e he
  have h1 : e.1 ∈ s := hperm.mem_iff.mpr (hwf e he).1
  obtain ⟨h2, hlt⟩ := htopo e he h1
  rw [List.indexOf_append_of_mem h2, List.indexOf_append_of_mem h1]
  exact hlt

theorem buildGraphG_edges (md : repoMetaData) :
    (buildGraphG md).edges =
      (md.ctrlFiles.map
        (fun rc => repoEdgesG md.pack2repo rc.1 rc.2)).flatten := by
  unfold buildGraphG
  suffices h : ∀ (l : List (String × Control)) (g : TGraph),
      (l.foldl (fun g2 rc => addRepoG md.pack2repo g2 rc.1 rc.2) g).edges =
        g.edges ++ (l.map (fun rc => repoEdgesG md.pack2repo rc.1 rc.2)).flatten by
    rw [h md.ctrlFiles TGraph.empty]
    simp [TGraph.empty]
  intro l
  induction l with
  | nil => intro g; simp
  | cons rc rest ih =>
      intro g
      rw [List.foldl_cons, ih, addRepoG_edges]
      simp

/-- C1: for every dependency graph built by determineBuildOrder, in
either variant, on which resolution succeeds, the returned sequence
places the target of every edge strictly before its source: a unit is
always preceded by each of its dependencies. -/
theorem determineBuildOrder_respects_edges :
    (∀ (repos : repoMetaData) (l : List String),
        determineBuildOrder repos = some l →
        ∀ e ∈ (buildGraph repos).edges,
          List.indexOf e.2 l < List.indexOf e.1 l) ∧
    (∀ (repos : repoMetaData) (l : List String),
        determineBuildOrderG repos = some l →
        ∀ e ∈ (buildGraphG repos).edges,
          List.indexOf e.2 l < List.indexOf e.1 l) := by
  constructor
  · intro repos l h
    unfold determineBuildOrder at h
    cases hs : tsortSort (buildGraph repos) with
    | none => rw [hs] at h; simp at h
    | some s =>
        rw [hs] at h
        simp at h
        subst h
        exact order_lift _ _ (buildGraph_nodup repos) (buildGraph_wf repos)
          s hs
  · intro repos l h
    unfold determineBuildOrderG at h
    cases hs : tsortSort (buildGraphG repos) with
    | none => rw [hs] at h; simp at h
    | some s =>
        rw [hs] at h
        simp at h
        subst h
        exact order_lift _ _ (buildGraphG_nodup repos) (buildGraphG_wf repos)
          s hs

/-- Witness for C1 at the alias-scenario directory: the edge from A to B
is respected by the computed order. -/
theorem determineBuildOrder_respects_edges_witness :
    List.indexOf "B"
        ["base-files", "lintian-profile-vyatta", "linux-vyatta", "B", "A"] <
      List.indexOf "A"
        ["base-files", "lintian-profile-vyatta", "linux-vyatta", "B", "A"] :=
  determineBuildOrder_respects_edges.1 (enumerateBuildableRepos entriesAlias)
    ["base-files", "lintian-profile-vyatta", "linux-vyatta", "B", "A"]
    (by decide) ("A", "B") (by decide)

/-- C2: every dependency graph with a directed cycle makes
determineBuildOrder fail fatally (the Sort cycle error is a panic), so no
partial or best-effort order is produced, in either variant. -/
theorem determineBuildOrder_cycle_fatal :
    (∀ repos : repoMetaData, hasCycle (buildGraph repos).edges →
        determineBuildOrder repos = none) ∧
    (∀ repos : repoMetaData, hasCycle (buildGraphG repos).edges →
        determineBuildOrderG repos = none) := by
  constructor
  · intro repos hc
    unfold determineBuildOrder
    rw [tsortSort_cycle_none _ (buildGraph_nodup repos)
      (buildGraph_wf repos) hc]
  · intro repos hc
    unfold determineBuildOrderG
    rw [tsortSort_cycle_none _ (buildGraphG_nodup repos)
      (buildGraphG_wf repos) hc]

/-- Witness for C2 at the directory of two mutually dependent units. -/
theorem determineBuildOrder_cycle_fatal_witness :
    determineBuildOrder (enumerateBuildableRepos entriesCycle) = none :=
  determineBuildOrder_cycle_fatal.1 (enumerateBuildableRepos entriesCycle)
    ⟨"a", ["b", "a"], by decide, by decide, ⟨by decide, by decide, trivial⟩⟩

theorem repoEdges_mem_buildGraph (md : repoMetaData) (repo : String)
    (c : Control) (h : (repo, c) ∈ md.ctrlFiles) (e : String × String)
    (he : e ∈ repoEdges md.pack2repo repo c) :
    e ∈ (buildGraph md).edges := by
  rw [buildGraph_edges]
  refine List.mem_flatten.mpr ⟨repoEdges md.pack2repo repo c, ?_, he⟩
  exact List.mem_map.mpr ⟨(repo, c), h, rfl⟩

theorem repoEdgesG_mem_buildGraphG (md : repoMetaData) (repo : String)
    (c : Control) (h : (repo, c) ∈ md.ctrlFiles) (e : String × String)
    (he : e ∈ repoEdgesG md.pack2repo repo c) :
    e ∈ (buildGraphG md).edges := by
  rw [buildGraphG_edges]
  refine List.mem_flatten.mpr ⟨repoEdgesG md.pack2repo repo c, ?_, he⟩
  exact List.mem_map.mpr ⟨(repo, c), h, rfl⟩

theorem implicitEdges_src_no_self (repo : String) (e : String × String)
    (he : e ∈ implicitEdges repo) : e.1 = repo ∧ e.1 ≠ e.2 := by
  unfold implicitEdges at he
  by_cases h1 : repo ≠ "base-files" ∧ repo ≠ "lintian-profile-vyatta"
  · rw [if_pos h1] at he
    by_cases h2 : repo ≠ "linux-vyatta"
    · rw [if_pos h2] at he
      simp at he
      rcases he with he | he | he <;> subst he <;>
        simp [h1.1, h1.2, h2]
    · rw [if_neg h2] at he
      simp at he
      rcases he with he | he <;> subst he <;>
        simp [h1.1, h1.2]
  · rw [if_neg h1] at he
    simp at he

theorem implicitEdge_base_mem (md : repoMetaData) (repo : String)
    (c : Control) (h : (repo, c) ∈ md.ctrlFiles)
    (h1 : repo ≠ "base-files") (h2 : repo ≠ "lintian-profile-vyatta") :
    (repo, "base-files") ∈ (buildGraph md).edges ∧
      (repo, "lintian-profile-vyatta") ∈ (buildGraph md).edges ∧
      (repo ≠ "linux-vyatta" →
        (repo, "linux-vyatta") ∈ (buildGraph md).edges) := by
  have hmem : ∀ x ∈ implicitEdges repo, x ∈ (buildGraph md).edges := by
    intro x hx
    exact repoEdges_mem_buildGraph md repo c h x
      (List.mem_append_left _ hx)
  have himp : (repo, "base-files") ∈ implicitEdges repo ∧
      (repo, "lintian-profile-vyatta") ∈ implicitEdges repo := by
    unfold implicitEdges
    rw [if_pos ⟨h1, h2⟩]
    by_cases h3 : repo ≠ "linux-vyatta"
    · rw [if_pos h3]; simp
    · rw [if_neg h3]; simp
  refine ⟨hmem _ himp.1, hmem _ himp.2, ?_⟩
  intro h3
  refine hmem _ ?_
  unfold implicitEdges
  rw [if_pos ⟨h1, h2⟩, if_pos h3]
  simp

/-- C3 counterexample: in the src/main.go variant the implicit base edge
is added for every unit with no exclusion set, so a parseable base-files
unit depends on itself; the self-edge is a one-vertex cycle, so the whole
resolution fails. -/
theorem implicit_self_edge_cex :
    ("base-files", "base-files") ∈
        (buildGraphG (enumerateBuildableReposG entriesBase)).edges ∧
      determineBuildOrderG (enumerateBuildableReposG entriesBase) = none :=
  ⟨by decide, by decide⟩

/-- C3 amended: in the exec-git variant the implicit base edges are
added exactly for the units outside the exclusion set of base-files and
lintian-profile-vyatta (the linux-vyatta edge additionally skipped for
linux-vyatta itself) and never create a self-edge; in the src/main.go
variant every unit, including base-files itself, receives the implicit
edge to base-files, which is a self-edge for base-files. -/
theorem implicitEdges_exclusion_no_self :
    (∀ (md : repoMetaData) (repo : String) (c : Control),
        (repo, c) ∈ md.ctrlFiles → repo ≠ "base-files" →
        repo ≠ "lintian-profile-vyatta" →
          (repo, "base-files") ∈ (buildGraph md).edges ∧
          (repo, "lintian-profile-vyatta") ∈ (buildGraph md).edges ∧
          (repo ≠ "linux-vyatta" →
            (repo, "linux-vyatta") ∈ (buildGraph md).edges)) ∧
    (∀ repo : String,
        repo = "base-files" ∨ repo = "lintian-profile-vyatta" →
          implicitEdges repo = []) ∧
    implicitEdges "linux-vyatta" =
      [("linux-vyatta", "base-files"),
        ("linux-vyatta", "lintian-profile-vyatta")] ∧
    (∀ (repo : String) (e : String × String),
        e ∈ implicitEdges repo → e.1 = repo ∧ e.1 ≠ e.2) ∧
    (∀ (md : repoMetaData) (c : Control),
        ("base-files", c) ∈ md.ctrlFiles →
          ("base-files", "base-files") ∈ (buildGraphG md).edges) := by
  refine ⟨?_, ?_, by decide, implicitEdges_src_no_self, ?_⟩
  · intro md repo c h h1 h2
    exact implicitEdge_base_mem md repo c h h1 h2
  · intro repo h
    rcases h with h | h <;> subst h <;> decide
  · intro md c h
    refine repoEdgesG_mem_buildGraphG md "base-files" c h _ ?_
    unfold repoEdgesG implicitEdgesG
    simp

/-- Witness for C3 at concrete directories: unit A of the alias scenario
receives all three implicit edges, and the go-git variant gives the
parseable base-files unit its self-edge. -/
theorem implicitEdges_exclusion_no_self_witness :
    ("A", "base-files") ∈
        (buildGraph (enumerateBuildableRepos entriesAlias)).edges ∧
      ("base-files", "base-files") ∈
        (buildGraphG (enumerateBuildableReposG entriesBase)).edges :=
  ⟨(implicitEdges_exclusion_no_self.1
      (enumerateBuildableRepos entriesAlias) "A" ctrlA (by decide)
      (by decide) (by decide)).1,
    implicitEdges_exclusion_no_self.2.2.2.2
      (enumerateBuildableReposG entriesBase) ctrlEmpty (by decide)⟩

theorem mem_mapKeys_mapInsert_self (m : List (String × String))
    (k v : String) : k ∈ mapKeys (mapInsert m k v) := by
  simp [mapKeys, mapInsert]

theorem mem_mapKeys_mapInsert_of_mem (m : List (String × String))
    (k v x : String) (h : x ∈ mapKeys m) :
    x ∈ mapKeys (mapInsert m k v) := by
  by_cases hx : x = k
  · subst hx
    exact mem_mapKeys_mapInsert_self m x v
  · obtain ⟨p, hp, hpx⟩ := List.mem_map.mp h
    have hpf : p ∈ m.filter (fun q => q.1 != k) := by
      refine List.mem_filter.mpr ⟨hp, ?_⟩
      simp [hpx, hx]
    unfold mapKeys mapInsert
    exact List.mem_cons_of_mem _ (List.mem_map.mpr ⟨p, hpf, hpx⟩)

theorem mapKeys_indexBinary_mono (repo x : String)
    (m : List (String × String)) (bin : Binary) (h : x ∈ mapKeys m) :
    x ∈ mapKeys (indexBinary repo m bin) := by
  unfold indexBinary
  cases bin.provides with
  | absent => exact mem_mapKeys_mapInsert_of_mem _ _ _ _ h
  | unparseable => exact mem_mapKeys_mapInsert_of_mem _ _ _ _ h
  | parsed names =>
      exact foldl_preserve _ (fun m2 => x ∈ mapKeys m2)
        (fun a b ha => mem_mapKeys_mapInsert_of_mem _ _ _ _ ha) names _
        (mem_mapKeys_mapInsert_of_mem _ _ _ _ h)

theorem indexBinary_keys_pkg (repo : String) (m : List (String × String))
    (bin : Binary) : trimSpace bin.pkg ∈ mapKeys (indexBinary repo m bin) := by
  unfold indexBinary
  cases bin.provides with
  | absent => exact mem_mapKeys_mapInsert_self _ _ _
  | unparseable => exact mem_mapKeys_mapInsert_self _ _ _
  | parsed names =>
      exact foldl_preserve _ (fun m2 => trimSpace bin.pkg ∈ mapKeys m2)
        (fun a b ha => mem_mapKeys_mapInsert_of_mem _ _ _ _ ha) names _
        (mem_mapKeys_mapInsert_self _ _ _)

theorem indexBinary_keys_provides (repo : String)
    (m : List (String × String)) (bin : Binary) (names : List String)
    (hp : bin.provides = ProvidesDecl.parsed names) (x : String)
    (hx : x ∈ names) :
    trimSpace x ∈ mapKeys (indexBinary repo m bin) := by
  unfold indexBinary
  rw [hp]
  exact foldl_establish _ (fun m2 => trimSpace x ∈ mapKeys m2)
    (fun a b ha => mem_mapKeys_mapInsert_of_mem _ _ _ _ ha) names _ x hx
    (fun a2 => mem_mapKeys_mapInsert_self _ _ _)

theorem enumStep_keys_mono (x : String) (st : repoMetaData)
    (e : DirEntry) (h : x ∈ mapKeys st.pack2repo) :
    x ∈ mapKeys (enumStep st e).pack2repo := by
  obtain ⟨nm, ctrl⟩ := e
  cases ctrl with
  | missing => exact h
  | unparseableFile => exact h
  | parsed c =>
      exact foldl_preserve (indexBinary nm) (fun m => x ∈ mapKeys m)
        (fun a b ha => mapKeys_indexBinary_mono nm x a b ha) c.binaries _ h

theorem enumerate_keys_pkg (entries : List DirEntry) (nm : String)
    (c : Control) (he : DirEntry.mk nm (CtrlState.parsed c) ∈ entries)
    (bin : Binary) (hb : bin ∈ c.binaries) :
    trimSpace bin.pkg ∈
      mapKeys (enumerateBuildableRepos entries).pack2repo := by
  unfold enumerateBuildableRepos
  refine foldl_establish enumStep
    (fun st => trimSpace bin.pkg ∈ mapKeys st.pack2repo)
    (fun a b ha => enumStep_keys_mono _ a b ha) entries _ _ he ?_
  intro st
  exact foldl_establish (indexBinary nm)
    (fun m => trimSpace bin.pkg ∈ mapKeys m)
    (fun a b ha => mapKeys_indexBinary_mono nm _ a b ha) c.binaries _ bin hb
    (fun a2 => indexBinary_keys_pkg nm a2 bin)

theorem enumerate_keys_provides (entries : List DirEntry) (nm : String)
    (c : Control) (he : DirEntry.mk nm (CtrlState.parsed c) ∈ entries)
    (bin : Binary) (hb : bin ∈ c.binaries) (names : List String)
    (hp : bin.provides = ProvidesDecl.parsed names) (x : String)
    (hx : x ∈ names) :
    trimSpace x ∈
      mapKeys (enumerateBuildableRepos entries).pack2repo := by
  unfold enumerateBuildableRepos
  refine foldl_establish enumStep
    (fun st => trimSpace x ∈ mapKeys st.pack2repo)
    (fun a b ha => enumStep_keys_mono _ a b ha) entries _ _ he ?_
  intro st
  exact foldl_establish (indexBinary nm)
    (fun m => trimSpace x ∈ mapKeys m)
    (fun a b ha => mapKeys_indexBinary_mono nm _ a b ha) c.binaries _ bin hb
    (fun a2 => indexBinary_keys_provides nm a2 bin names hp x hx)

theorem depEdge_created (md : repoMetaData) (repo : String) (c : Control)
    (hc : (repo, c) ∈ md.ctrlFiles) (rel : Relation)
    (hrel : rel ∈ c.buildDepends) (pos : Possibility)
    (hpos : pos ∈ rel.possibilities) (drepo : String)
    (hlook : mapLookup md.pack2repo (trimSpace pos.name) = some drepo) :
    (repo, drepo) ∈ (buildGraph md).edges := by
  refine repoEdges_mem_buildGraph md repo c hc _ ?_
  unfold repoEdges
  refine List.mem_append_right _ ?_
  unfold depEdges
  refine List.mem_flatten.mpr
    ⟨relEdges md.pack2repo repo rel, List.mem_map.mpr ⟨rel, hrel, rfl⟩, ?_⟩
  unfold relEdges
  exact List.mem_filterMap.mpr ⟨pos, hpos, by simp [posEdge, hlook]⟩

/-- C4 counterexample: in the src/main.go variant the Provides
declaration of unit B is not indexed at all, so the alias name is
missing from the index and the edge from A (which requires the alias) to
B is not created. -/
theorem provides_alias_ignored_cex :
    trimSpace "b-alias" ∉
        mapKeys (enumerateBuildableReposG entriesAlias).pack2repo ∧
      ("A", "B") ∉
        (buildGraphG (enumerateBuildableReposG entriesAlias)).edges :=
  ⟨by decide, by decide⟩

/-- C4 amended: in the exec-git variant the index contains the trimmed
package name of every declared binary of every parsed unit, and every
trimmed name of a parsed Provides declaration, an unparseable Provides
declaration skipping only itself; every build-time possibility that
resolves through the index yields its edge, so an alias-only provider
still receives the edge, as the concrete alias scenario shows.  The
src/main.go variant indexes only primary package names and creates no
alias edges. -/
theorem provides_indexed_and_alias_edge :
    (∀ (entries : List DirEntry) (nm : String) (c : Control),
        DirEntry.mk nm (CtrlState.parsed c) ∈ entries →
        ∀ bin ∈ c.binaries,
          trimSpace bin.pkg ∈
              mapKeys (enumerateBuildableRepos entries).pack2repo ∧
            ∀ names, bin.provides = ProvidesDecl.parsed names →
              ∀ x ∈ names,
                trimSpace x ∈
                  mapKeys (enumerateBuildableRepos entries).pack2repo) ∧
    (∀ (md : repoMetaData) (repo : String) (c : Control),
        (repo, c) ∈ md.ctrlFiles →
        ∀ rel ∈ c.buildDepends, ∀ pos ∈ rel.possibilities,
          ∀ drepo : String,
            mapLookup md.pack2repo (trimSpace pos.name) = some drepo →
            (repo, drepo) ∈ (buildGraph md).edges) ∧
    ("A", "B") ∈ (buildGraph (enumerateBuildableRepos entriesAlias)).edges := by
  refine ⟨?_, ?_, by decide⟩
  · intro entries nm c he bin hb
    refine ⟨enumerate_keys_pkg entries nm c he bin hb, ?_⟩
    intro names hp x hx
    exact enumerate_keys_provides entries nm c he bin hb names hp x hx
  · intro md repo c hc rel hrel pos hpos drepo hlook
    exact depEdge_created md repo c hc rel hrel pos hpos drepo hlook

/-- Witness for C4 at the alias scenario: the alias name of unit B is
indexed and resolving it creates the edge from A to B. -/
theorem provides_indexed_and_alias_edge_witness :
    trimSpace "b-alias" ∈
        mapKeys (enumerateBuildableRepos entriesAlias).pack2repo ∧
      ("A", "B") ∈
        (buildGraph (enumerateBuildableRepos entriesAlias)).edges :=
  ⟨((provides_indexed_and_alias_edge.1 entriesAlias "B" ctrlB (by decide)
        { pkg := "b-main", provides := ProvidesDecl.parsed ["b-alias"] }
        (by decide)).2 ["b-alias"] rfl "b-alias" (by decide)),
    provides_indexed_and_alias_edge.2.1
      (enumerateBuildableRepos entriesAlias) "A" ctrlA (by decide)
      { possibilities := [{ name := "b-alias" }] } (by decide)
      { name := "b-alias" } (by decide) "B" (by decide)⟩

theorem enumStep_fold_fields :
    ∀ (l : List DirEntry) (st : repoMetaData),
      (l.foldl enumStep st).unparseable =
          st.unparseable ++ l.filterMap unpName ∧
        (l.foldl enumStep st).ctrlFiles =
          st.ctrlFiles ++ l.filterMap parsedPair := by
  intro l
  induction l with
  | nil => intro st; simp
  | cons e rest ih =>
      intro st
      obtain ⟨nm, ctrl⟩ := e
      rw [List.foldl_cons]
      obtain ⟨ih1, ih2⟩ := ih (enumStep st ⟨nm, ctrl⟩)
      cases ctrl with
      | missing =>
          exact ⟨by rw [ih1]; simp [enumStep, unpName],
            by rw [ih2]; simp [enumStep, parsedPair]⟩
      | unparseableFile =>
          exact ⟨by rw [ih1]; simp [enumStep, unpName],
            by rw [ih2]; simp [enumStep, parsedPair]⟩
      | parsed c =>
          exact ⟨by rw [ih1]; simp [enumStep, unpName],
            by rw [ih2]; simp [enumStep, parsedPair]⟩

theorem enumerate_unparseable_eq (entries : List DirEntry) :
    (enumerateBuildableRepos entries).unparseable =
      entries.filterMap unpName := by
  unfold enumerateBuildableRepos
  rw [(enumStep_fold_fields entries _).1]
  simp

theorem enumerate_ctrlFiles_eq (entries : List DirEntry) :
    (enumerateBuildableRepos entries).ctrlFiles =
      entries.filterMap parsedPair := by
  unfold enumerateBuildableRepos
  rw [(enumStep_fold_fields entries _).2]
  simp

theorem unpName_sublist (entries : List DirEntry) :
    (entries.filterMap unpName).Sublist (entries.map DirEntry.name) := by
  induction entries with
  | nil => simp
  | cons e rest ih =>
      obtain ⟨nm, ctrl⟩ := e
      cases ctrl with
      | missing =>
          simp only [List.filterMap_cons, List.map_cons, unpName]
          exact ih.cons _
      | unparseableFile =>
          simp only [List.filterMap_cons, List.map_cons, unpName]
          exact ih.cons₂ _
      | parsed c =>
          simp only [List.filterMap_cons, List.map_cons, unpName]
          exact ih.cons _

theorem depEdges_src (p2r : List (String × String)) (repo : String)
    (c : Control) (e : String × String) (he : e ∈ depEdges p2r repo c) :
    e.1 = repo := by
  unfold depEdges at he
  obtain ⟨L, hL, heL⟩ := List.mem_flatten.mp he
  obtain ⟨rel, hrel, hLe⟩ := List.mem_map.mp hL
  rw [← hLe] at heL
  unfold relEdges at heL
  obtain ⟨pos, hpos, hpe⟩ := List.mem_filterMap.mp heL
  unfold posEdge at hpe
  cases hl : mapLookup p2r (trimSpace pos.name) with
  | none => rw [hl] at hpe; simp at hpe
  | some d =>
      rw [hl] at hpe
      simp at hpe
      rw [← hpe]

theorem buildGraph_edge_src (md : repoMetaData) (e : String × String)
    (he : e ∈ (buildGraph md).edges) :
    e.1 ∈ md.ctrlFiles.map Prod.fst := by
  rw [buildGraph_edges] at he
  obtain ⟨L, hL, heL⟩ := List.mem_flatten.mp he
  obtain ⟨rc, hrc, hLe⟩ := List.mem_map.mp hL
  rw [← hLe] at heL
  unfold repoEdges at heL
  rcases List.mem_append.mp heL with h | h
  · rw [(implicitEdges_src_no_self rc.1 e h).1]
    exact List.mem_map.mpr ⟨rc, hrc, rfl⟩
  · rw [depEdges_src md.pack2repo rc.1 rc.2 e h]
    exact List.mem_map.mpr ⟨rc, hrc, rfl⟩

/-- C5 counterexample: an unparseable unit named base-files is still an
implicit edge target of the parseable unit foo, so it appears in the
sorted graph part of the order and again in the appended unparseable
tail: twice in the final build order, not exactly once. -/
theorem unparseable_twice_cex :
    determineBuildOrder (enumerateBuildableRepos entriesUnp) =
        some ["base-files", "lintian-profile-vyatta", "linux-vyatta",
          "foo", "base-files"] ∧
      List.count "base-files"
          ["base-files", "lintian-profile-vyatta", "linux-vyatta",
            "foo", "base-files"] = 2 :=
  ⟨by decide, by decide⟩

/-- C5 amended: an unparseable unit is recorded once, contributes no
ctrlFiles record and no edge source, and the final order is the sorted
sequence followed by the unparseable list in discovery order; it appears
exactly once in the final order provided it is not also a vertex of the
sorted graph, which can happen when its name is an implicit base edge
target of some parsed unit. -/
theorem unparseable_appended_after (entries : List DirEntry) (u : String)
    (hnd : (entries.map DirEntry.name).Nodup)
    (he : DirEntry.mk u CtrlState.unparseableFile ∈ entries) :
    u ∈ (enumerateBuildableRepos entries).unparseable ∧
    u ∉ (enumerateBuildableRepos entries).ctrlFiles.map Prod.fst ∧
    (∀ e ∈ (buildGraph (enumerateBuildableRepos entries)).edges,
      e.1 ≠ u) ∧
    List.count u (enumerateBuildableRepos entries).unparseable = 1 ∧
    ∀ l, determineBuildOrder (enumerateBuildableRepos entries) = some l →
      ∃ s,
        tsortSort (buildGraph (enumerateBuildableRepos entries)) = some s ∧
        l = s ++ (enumerateBuildableRepos entries).unparseable ∧
        (u ∉ s → List.count u l = 1) := by
  have hmemu : u ∈ (enumerateBuildableRepos entries).unparseable := by
    rw [enumerate_unparseable_eq]
    exact List.mem_filterMap.mpr ⟨⟨u, CtrlState.unparseableFile⟩, he, rfl⟩
  have hnotc : u ∉ (enumerateBuildableRepos entries).ctrlFiles.map Prod.fst := by
    rw [enumerate_ctrlFiles_eq]
    intro hc
    obtain ⟨rc, hrc, hfst⟩ := List.mem_map.mp hc
    obtain ⟨e2, he2, hpp⟩ := List.mem_filterMap.mp hrc
    obtain ⟨nm2, ctrl2⟩ := e2
    cases ctrl2 with
    | missing => simp [parsedPair] at hpp
    | unparseableFile => simp [parsedPair] at hpp
    | parsed c2 =>
        simp [parsedPair] at hpp
        have hnm2 : nm2 = u := by rw [← hfst, ← hpp]
        have heq :=
          List.inj_on_of_nodup_map hnd he2 he
            (by simpa using hnm2)
        simp at heq
  have hcount : List.count u (enumerateBuildableRepos entries).unparseable = 1 := by
    rw [enumerate_unparseable_eq]
    have hnodup : (entries.filterMap unpName).Nodup :=
      (unpName_sublist entries).nodup hnd
    have hmem : u ∈ entries.filterMap unpName :=
      List.mem_filterMap.mpr ⟨⟨u, CtrlState.unparseableFile⟩, he, rfl⟩
    exact List.count_eq_one_of_mem hnodup hmem
  refine ⟨hmemu, hnotc, ?_, hcount, ?_⟩
  · intro e hedge hcontra
    exact hnotc (hcontra ▸ buildGraph_edge_src _ e hedge)
  · intro l hl
    unfold determineBuildOrder at hl
    cases hs : tsortSort (buildGraph (enumerateBuildableRepos entries)) with
    | none => rw [hs] at hl; simp at hl
    | some s =>
        rw [hs] at hl
        simp at hl
        refine ⟨s, rfl, hl.symm, ?_⟩
        intro hns
        rw [← hl, List.count_append]
        rw [List.count_eq_zero_of_not_mem hns, hcount]

/-- Witness for C5 at the single unparseable unit directory. -/
theorem unparseable_appended_after_witness :
    "u" ∈ (enumerateBuildableRepos entriesU).unparseable ∧
      List.count "u" (enumerateBuildableRepos entriesU).unparseable = 1 :=
  ⟨(unparseable_appended_after entriesU "u" (by decide) (by decide)).1,
    (unparseable_appended_after entriesU "u" (by decide)
        (by decide)).2.2.2.1⟩

theorem buildReposLoop_fold (att : String → Option RunErr) :
    ∀ (repos : List String) (st : RunState),
      (repos.foldl (buildStep att) st).attempted =
          st.attempted ++ repos ∧
        (repos.foldl (buildStep att) st).logFiles =
          st.logFiles ++ repos.map perUnitLogName ∧
        (repos.foldl (buildStep att) st).buildErrs =
          st.buildErrs ++ repos.filterMap att ∧
        (repos.foldl (buildStep att) st).logLines =
          st.logLines ++ repos.filterMap att := by
  intro repos
  induction repos with
  | nil => intro st; simp
  | cons repo rest ih =>
      intro st
      rw [List.foldl_cons]
      obtain ⟨ih1, ih2, ih3, ih4⟩ := ih (buildStep att st repo)
      cases hatt : att repo with
      | none =>
          refine ⟨?_, ?_, ?_, ?_⟩
          · rw [ih1]; simp [buildStep, hatt]
          · rw [ih2]; simp [buildStep, hatt]
          · rw [ih3]; simp [buildStep, hatt]
          · rw [ih4]; simp [buildStep, hatt]
      | some e =>
          refine ⟨?_, ?_, ?_, ?_⟩
          · rw [ih1]; simp [buildStep, hatt]
          · rw [ih2]; simp [buildStep, hatt]
          · rw [ih3]; simp [buildStep, hatt]
          · rw [ih4]; simp [buildStep, hatt]

theorem buildRepo_wraps (repo : String) (mk bld : Option String)
    (err : RunErr) (h : buildRepo repo mk bld = some err) :
    ∃ cause, err = RunErr.buildError repo cause := by
  unfold buildRepo at h
  cases mk with
  | some cause => simp at h; exact ⟨cause, h.symm⟩
  | none =>
      cases bld with
      | some cause => simp at h; exact ⟨cause, h.symm⟩
      | none => simp at h

/-- C6: with the build outcomes given, the loop attempts every unit of
the order in sequence regardless of earlier failures, every failure is
wrapped with the unit name, appended to the aggregated list and written
to the persistent failure log, and the run result is success exactly
when the aggregated list is empty. -/
theorem buildRepos_aggregates_failures (repos : List String)
    (mk bld : String → Option String) :
    (buildReposLoop (fun r => buildRepo r (mk r) (bld r)) repos).attempted
        = repos ∧
    (buildReposLoop (fun r => buildRepo r (mk r) (bld r)) repos).logLines
        = (buildReposLoop (fun r => buildRepo r (mk r) (bld r))
            repos).buildErrs ∧
    (buildReposLoop (fun r => buildRepo r (mk r) (bld r)) repos).buildErrs
        = repos.filterMap (fun r => buildRepo r (mk r) (bld r)) ∧
    (buildReposResult (fun r => buildRepo r (mk r) (bld r)) repos =
        Except.ok () ↔
      (buildReposLoop (fun r => buildRepo r (mk r) (bld r))
          repos).buildErrs = []) ∧
    (∀ r ∈ repos, ∀ err, buildRepo r (mk r) (bld r) = some err →
      (∃ cause, err = RunErr.buildError r cause) ∧
        err ∈ (buildReposLoop (fun r2 => buildRepo r2 (mk r2) (bld r2))
          repos).buildErrs) := by
  obtain ⟨h1, h2, h3, h4⟩ :=
    buildReposLoop_fold (fun r => buildRepo r (mk r) (bld r)) repos
      { buildErrs := [], logLines := [], attempted := [], logFiles := [] }
  have h1a : (buildReposLoop (fun r => buildRepo r (mk r) (bld r))
      repos).attempted = repos := by
    unfold buildReposLoop; rw [h1]; simp
  have h3a : (buildReposLoop (fun r => buildRepo r (mk r) (bld r))
      repos).buildErrs = repos.filterMap (fun r => buildRepo r (mk r) (bld r)) := by
    unfold buildReposLoop; rw [h3]; simp
  have h4a : (buildReposLoop (fun r => buildRepo r (mk r) (bld r))
      repos).logLines = repos.filterMap (fun r => buildRepo r (mk r) (bld r)) := by
    unfold buildReposLoop; rw [h4]; simp
  refine ⟨h1a, by rw [h3a, h4a], h3a, ?_, ?_⟩
  · unfold buildReposResult
    by_cases hb : (buildReposLoop (fun r => buildRepo r (mk r) (bld r))
        repos).buildErrs.isEmpty
    · simp [hb]
      exact List.isEmpty_iff.mp hb
    · simp [hb]
      intro hc
      rw [hc] at hb
      simp at hb
  · intro r hr err herr
    refine ⟨buildRepo_wraps r (mk r) (bld r) err herr, ?_⟩
    rw [h3a]
    exact List.mem_filterMap.mpr ⟨r, hr, herr⟩

/-- Witness for C6: both units are attempted, the failure of a is
wrapped and aggregated, and the run result is the error list. -/
theorem buildRepos_aggregates_failures_witness :
    (buildReposLoop (fun r => buildRepo r (mkOk r) (bldBoom r))
        ["a", "b"]).attempted = ["a", "b"] ∧
      (∃ cause, RunErr.buildError "a" "boom" =
          RunErr.buildError "a" cause) ∧
      RunErr.buildError "a" "boom" ∈
        (buildReposLoop (fun r => buildRepo r (mkOk r) (bldBoom r))
          ["a", "b"]).buildErrs :=
  ⟨(buildRepos_aggregates_failures ["a", "b"] mkOk bldBoom).1,
    ((buildRepos_aggregates_failures ["a", "b"] mkOk bldBoom).2.2.2.2 "a"
        (by decide) (RunErr.buildError "a" "boom") (by decide)).1,
    ((buildRepos_aggregates_failures ["a", "b"] mkOk bldBoom).2.2.2.2 "a"
        (by decide) (RunErr.buildError "a" "boom") (by decide)).2⟩

/-- C7 counterexample: src/main.go opens failed-builds.log without
O_TRUNC, so after a run that writes no failure line the file still holds
the failure text of an earlier run; the exec-git variant truncates. -/
theorem failed_log_stale_cex :
    contentAfterRun failedLogFlagsG [Char.ofNat 120] [] =
        [Char.ofNat 120] ∧
      contentAfterRun failedLogFlags [Char.ofNat 120] [] = [] :=
  ⟨by decide, by decide⟩

/-- C7 amended: the exec-git variant opens failed-builds.log with
O_TRUNC, recreating it empty at the start of each run so that after the
run it holds exactly what the run wrote; the src/main.go variant opens
it without O_TRUNC, so content of earlier runs beyond the newly written
bytes persists.  One per-unit log file named unit + ".log" is opened for
every attempted unit. -/
theorem failed_log_truncation_and_unit_logs :
    (∀ old : List Char, contentAfterOpen failedLogFlags old = []) ∧
    (∀ old written : List Char,
        contentAfterRun failedLogFlags old written = written) ∧
    OFlag.otrunc ∉ failedLogFlagsG ∧
    (∀ old written : List Char,
        contentAfterRun failedLogFlagsG old written =
          written ++ old.drop written.length) ∧
    (∀ (att : String → Option RunErr) (repos : List String),
        (buildReposLoop att repos).logFiles =
            repos.map perUnitLogName ∧
          (buildReposLoop att repos).attempted = repos) := by
  refine ⟨?_, ?_, by decide, ?_, ?_⟩
  · intro old
    simp [contentAfterOpen, failedLogFlags]
  · intro old written
    simp [contentAfterRun, contentAfterOpen, failedLogFlags]
  · intro old written
    simp [contentAfterRun, contentAfterOpen, failedLogFlagsG]
  · intro att repos
    obtain ⟨h1, h2, _, _⟩ := buildReposLoop_fold att repos
      { buildErrs := [], logLines := [], attempted := [], logFiles := [] }
    constructor
    · unfold buildReposLoop; rw [h2]; simp
    · unfold buildReposLoop; rw [h1]; simp

/-- C8: whenever the wrapped fn runs and returns, whatever it returns,
both output streams are restored to their entry values and the copy has
been awaited before teeAndEval returns; and fn runs exactly when both
the pipe and the log file were obtained. -/
theorem teeAndEval_restores_and_drains (fnRes : Option String)
    (s : ProcState) :
    teeAndEval none none fnRes s =
        ({ ret := fnRes, fnRan := true, drained := true }, s) ∧
      ∀ pipeRes openRes : Option String,
        (teeAndEval pipeRes openRes fnRes s).1.fnRan =
          (pipeRes.isNone && openRes.isNone) := by
  refine ⟨rfl, ?_⟩
  intro pipeRes openRes
  cases pipeRes with
  | some e => rfl
  | none =>
      cases openRes with
      | some e => rfl
      | none => rfl

/-- C10: when opening the per-unit log file fails, teeAndEval returns
exactly that open error and the wrapped fn is never invoked (the
redirection installed just before is, faithfully to the source, left in
place). -/
theorem teeAndEval_open_failure_skips_fn (e : String)
    (fnRes : Option String) (s : ProcState) :
    teeAndEval none (some e) fnRes s =
      ({ ret := some e, fnRan := false, drained := false },
        { stdout := StreamVal.pipeWriter,
          stderr := StreamVal.pipeWriter }) :=
  rfl

/-- C9: with neither mode flag set, both variants still compute and
print the resolved build order, create no log directory, run no
executor state (hence open no log file and invoke no build), and ignore
the clone and mkdir collaborators entirely. -/
theorem mainRun_dry_run (entries : List DirEntry) (gitRef : String)
    (cloneRes mkdirRes : Option String) (att : String → Option RunErr)
    (orderA orderB : List String)
    (hA : determineBuildOrder (enumerateBuildableRepos entries) =
      some orderA)
    (hB : determineBuildOrderG (enumerateBuildableReposG entries) =
      some orderB) :
    mainRun false false gitRef cloneRes mkdirRes entries att =
        some { printedOrder := some orderA, logDirCreated := false,
               runState := none } ∧
      mainRunG false false cloneRes mkdirRes entries att =
        some { printedOrder := some orderB, logDirCreated := false,
               runState := none } := by
  constructor
  · unfold mainRun
    rw [hA]
    simp
  · unfold mainRunG
    rw [hB]
    simp

/-- Witness for C9 at the alias-scenario directory. -/
theorem mainRun_dry_run_witness :
    mainRun false false "" none none entriesAlias (fun _ => none) =
      some { printedOrder :=
               some ["base-files", "lintian-profile-vyatta",
                 "linux-vyatta", "B", "A"],
             logDirCreated := false, runState := none } :=
  (mainRun_dry_run entriesAlias "" none none (fun _ => none)
      ["base-files", "lintian-profile-vyatta", "linux-vyatta", "B", "A"]
      ["base-files", "B", "A"] (by decide) (by decide)).1

/-- Witness for C7: concrete stale content is truncated by the exec-git
flags and a concrete run opens the per-unit log of its one unit. -/
theorem failed_log_truncation_and_unit_logs_witness :
    contentAfterOpen failedLogFlags [Char.ofNat 120] = [] ∧
      (buildReposLoop (fun _ => none) ["a"]).logFiles =
        List.map perUnitLogName ["a"] :=
  ⟨failed_log_truncation_and_unit_logs.1 [Char.ofNat 120],
    (failed_log_truncation_and_unit_logs.2.2.2.2 (fun _ => none) ["a"]).1⟩

/-- Witness for C8 at a concrete entry state and a failing fn. -/
theorem teeAndEval_restores_and_drains_witness :
    teeAndEval none none (some "boom")
        { stdout := StreamVal.fd 1, stderr := StreamVal.fd 2 } =
      ({ ret := some "boom", fnRan := true, drained := true },
        { stdout := StreamVal.fd 1, stderr := StreamVal.fd 2 }) :=
  (teeAndEval_restores_and_drains (some "boom")
      { stdout := StreamVal.fd 1, stderr := StreamVal.fd 2 }).1

/-- Witness for C10 at a concrete entry state. -/
theorem teeAndEval_open_failure_skips_fn_witness :
    teeAndEval none (some "openfail") none
        { stdout := StreamVal.fd 1, stderr := StreamVal.fd 2 } =
      ({ ret := some "openfail", fnRan := false, drained := false },
        { stdout := StreamVal.pipeWriter,
          stderr := StreamVal.pipeWriter }) :=
  teeAndEval_open_failure_skips_fn "openfail" none
    { stdout := StreamVal.fd 1, stderr := StreamVal.fd 2 }

end Danos
